import Mathlib

/-!
Shallow embedding of `pump_swap_mc.py`: a single-shot utility that locates
the highest-liquidity PumpSwap AMM pool for a token mint, decodes the pool
account binary layout, and combines the pool reserves with an oracle
SOL/USD price and the total supply into a market capitalization.

Conventions of the embedding:
* byte buffers are `List Nat` (each entry one byte);
* Python floats are idealized as rationals (the spec requires full
  precision, and every example value is exactly representable);
* statements that can raise are embedded in `Except PyError`, where
  `PyError` distinguishes the interpreter's own arithmetic fault from
  errors raised explicitly by the program;
* network responses (program-account scans, balance lookups, the oracle
  HTTP response) are passed to the embedded functions as explicit inputs.
-/

/-- Python exceptions distinguished by the embedding.  `zeroDivisionError` is
the interpreter's fault raised by the `/` operator on a zero divisor (Python
raises `ZeroDivisionError` for `float` division as well); `httpError` is
raised by `requests.Response.raise_for_status`; `keyError` by indexing a dict
with a missing key; `runtimeError` by an explicit `raise RuntimeError(msg)`
statement in the program. -/
inductive PyError where
  | zeroDivisionError
  | httpError (status : Nat)
  | keyError (key : String)
  | runtimeError (msg : String)
deriving DecidableEq

/-- `PoolKeys` dataclass (lines 11-18 of the source): addresses are kept as
32-byte buffers, except the pool account address `amm`, which the source
carries as a base-58 string. -/
structure PoolKeys where
  amm : String
  base_mint : List Nat
  quote_mint : List Nat
  pool_base_token_account : List Nat
  pool_quote_token_account : List Nat
  creator : List Nat
deriving DecidableEq

/-- `MarketCapData` dataclass (lines 20-24 of the source). -/
structure MarketCapData where
  token_price_sol : ℚ
  token_price_usd : ℚ
  market_cap_usd : ℚ
deriving DecidableEq

/-- The fields of the `POOL_LAYOUT` construct `Struct` (lines 29-41 of the
source): after 8 bytes of padding, a 1-byte bump, a 2-byte little-endian
index, six 32-byte addresses, an 8-byte little-endian lp supply, and a
trailing 32-byte coin-creator address. -/
structure PoolFields where
  pool_bump : Nat
  index : Nat
  creator : List Nat
  base_mint : List Nat
  quote_mint : List Nat
  lp_mint : List Nat
  pool_base_token_account : List Nat
  pool_quote_token_account : List Nat
  lp_supply : Nat
  coin_creator : List Nat
deriving DecidableEq

/-- Little-endian byte serialization of `n` on `k` bytes (construct's
`Int8ul` / `Int16ul` / `Int64ul` build direction). -/
def leBytes (k n : Nat) : List Nat :=
  (List.range k).map (fun i => n / 256 ^ i % 256)

/-- Little-endian value of a byte list (construct's `Int8ul` / `Int16ul` /
`Int64ul` parse direction). -/
def leValue (bs : List Nat) : Nat :=
  bs.foldr (fun b acc => b + 256 * acc) 0

/-- `POOL_LAYOUT.parse` (line 127 of the source): sequentially consume
8 padding bytes, the bump byte, the 2-byte index, six 32-byte addresses, the
8-byte lp supply and the 32-byte coin creator.  construct fails (here:
`none`) when the buffer is shorter than the 243 bytes the layout needs. -/
def poolLayoutParse (data : List Nat) : Option PoolFields :=
  if 243 ≤ data.length then
    let r0 := data.drop 8
    let r1 := r0.drop 1
    let r2 := r1.drop 2
    let r3 := r2.drop 32
    let r4 := r3.drop 32
    let r5 := r4.drop 32
    let r6 := r5.drop 32
    let r7 := r6.drop 32
    let r8 := r7.drop 32
    let r9 := r8.drop 8
    some {
      pool_bump := leValue (r0.take 1)
      index := leValue (r1.take 2)
      creator := r2.take 32
      base_mint := r3.take 32
      quote_mint := r4.take 32
      lp_mint := r5.take 32
      pool_base_token_account := r6.take 32
      pool_quote_token_account := r7.take 32
      lp_supply := leValue (r8.take 8)
      coin_creator := r9.take 32 }
  else none

/-- `POOL_LAYOUT.build`: the byte buffer obtained by placing the field values
at the layout's offsets — 8 padding bytes, bump at offset 8, little-endian
index at 9, creator at 11, base mint at 43, quote mint at 75, lp mint at 107,
base reserve account at 139, quote reserve account at 171, little-endian lp
supply at 203, coin creator at 211. -/
def poolLayoutBuild (f : PoolFields) : List Nat :=
  List.replicate 8 0 ++ leBytes 1 f.pool_bump ++ leBytes 2 f.index ++
    f.creator ++ f.base_mint ++ f.quote_mint ++ f.lp_mint ++
    f.pool_base_token_account ++ f.pool_quote_token_account ++
    leBytes 8 f.lp_supply ++ f.coin_creator

/-- One candidate account returned by the two `get_program_accounts` filter
queries (lines 94-113 of the source), in enumeration order.  `pubkey` is the
account's address rendered as a string (`str(acct.pubkey)`).  `fetch` is the
outcome of the per-candidate `try` block: slicing the embedded reserve
account addresses out of `acct.account.data` and fetching both token-account
balances; `some (balBase, balQuote)` when all of it succeeds, `none` when any
step raises (the bare `except` catches every exception alike). -/
structure Candidate where
  pubkey : String
  fetch : Option (Nat × Nat)
deriving DecidableEq

/-- Liquidity score of a successfully fetched candidate: the product
`bal_base * bal_quote` (line 111 of the source). -/
def scoreCandidate (c : Candidate) : Option Nat :=
  c.fetch.map (fun bq => bq.1 * bq.2)

/-- The scanning loop of `_fetch_pool_from_rpc` (lines 91-119 of the source)
with its two loop variables `best` and `max_liq`: a failed candidate is
skipped, and a fetched candidate replaces the running best exactly when its
liquidity is strictly greater than `max_liq`. -/
def poolScan : Option String → Nat → List Candidate → Option String
  | best, _, [] => best
  | best, maxLiq, c :: rest =>
    match c.fetch with
    | none => poolScan best maxLiq rest
    | some (balBase, balQuote) =>
      let liq := balBase * balQuote
      if liq > maxLiq then poolScan (some c.pubkey) liq rest
      else poolScan best maxLiq rest

/-- `_fetch_pool_from_rpc` (lines 77-119 of the source) applied to the
candidates of both filter sets, concatenated in enumeration order (outer loop
over the two filter sets, inner loop over each response; a filter set whose
`get_program_accounts` call raised contributes no candidates).  `best` starts
at `None` and `max_liq` at `0`. -/
def fetch_pool_from_rpc (candidates : List Candidate) : Option String :=
  poolScan none 0 candidates

/-- Specification-side definition: the maximum liquidity score over the
successfully fetched candidates (0 when there is none). -/
def maxScore : List Candidate → Nat
  | [] => 0
  | c :: rest =>
    match scoreCandidate c with
    | some s => max s (maxScore rest)
    | none => maxScore rest

/-- Specification-side predicate: `c` was fetched successfully and its
liquidity score equals `M`. -/
def attainsScore (M : Nat) (c : Candidate) : Bool :=
  scoreCandidate c = some M

/-- Oracle HTTP response: final status code and the JSON object body,
modelled as an association list of numeric fields. -/
structure HttpResponse where
  status : Nat
  body : List (String × ℚ)
deriving DecidableEq

/-- `requests.Response.raise_for_status` (line 151 of the source): raises
`HTTPError` exactly for 4xx client errors and 5xx server errors. -/
def raise_for_status (r : HttpResponse) : Except PyError Unit :=
  if 400 ≤ r.status ∧ r.status < 600 then Except.error (PyError.httpError r.status)
  else Except.ok ()

/-- `_get_sol_price_usd` (lines 149-152 of the source): `raise_for_status`,
then `resp.json()["Price"]` — a missing key raises `KeyError`. -/
def get_sol_price_usd (r : HttpResponse) : Except PyError ℚ := do
  let _ ← raise_for_status r
  match r.body.lookup "Price" with
  | none => Except.error (PyError.keyError "Price")
  | some p => Except.ok p

/-- Python's `/` on idealized floats: raises `ZeroDivisionError` on a zero
divisor, otherwise returns the exact quotient. -/
def pyDiv (a b : ℚ) : Except PyError ℚ :=
  if b = 0 then Except.error PyError.zeroDivisionError else Except.ok (a / b)

/-- `get_market_cap` (lines 154-168 of the source).  The reserves (the result
of `_get_pool_reserves`) and the oracle HTTP response are explicit inputs;
`total_supply` is the decimal-adjusted supply held by the instance.  The
statements appear in source order: the two decimal scalings, the price
division, the oracle fetch, and the two multiplications. -/
def get_market_cap (base_reserve quote_reserve : Nat)
    (token_decimals quote_decimals : Nat) (oracle : HttpResponse)
    (total_supply : ℚ) : Except PyError MarketCapData := do
  let token_amt ← pyDiv (base_reserve : ℚ) (10 ^ token_decimals)
  let sol_amt ← pyDiv (quote_reserve : ℚ) (10 ^ quote_decimals)
  let token_price_sol ← pyDiv sol_amt token_amt
  let sol_usd ← get_sol_price_usd oracle
  let token_price_usd := token_price_sol * sol_usd
  let market_cap_usd := token_price_usd * total_supply
  Except.ok {
    token_price_sol := token_price_sol
    token_price_usd := token_price_usd
    market_cap_usd := market_cap_usd }

/-- `_fetch_pool_keys` (lines 121-137 of the source): parse the raw account
bytes of the located pool against `POOL_LAYOUT` and repackage the addresses;
note the source fills `PoolKeys.creator` from the decoded `coin_creator`
field.  Any failure inside the `try` yields `None`. -/
def fetch_pool_keys (pool_id : String) (accountData : List Nat) : Option PoolKeys :=
  match poolLayoutParse accountData with
  | none => none
  | some d => some {
      amm := pool_id
      base_mint := d.base_mint
      quote_mint := d.quote_mint
      pool_base_token_account := d.pool_base_token_account
      pool_quote_token_account := d.pool_quote_token_account
      creator := d.coin_creator }

/-- The pool-dependent part of `__init__` (lines 63-75 of the source): locate
the pool, abort with `RuntimeError` when no pool was found, decode the pool
keys, abort with `RuntimeError` when decoding failed, and read the token
decimals from the mint account info. -/
def initPool (mint : String) (candidates : List Candidate)
    (poolAccountData : List Nat) (mintDecimals : Nat) :
    Except PyError (String × PoolKeys × Nat) :=
  match fetch_pool_from_rpc candidates with
  | none => Except.error (PyError.runtimeError ("No pool found for mint " ++ mint))
  | some pid =>
    match fetch_pool_keys pid poolAccountData with
    | none => Except.error (PyError.runtimeError ("Failed to fetch pool keys for " ++ pid))
    | some keys => Except.ok (pid, keys, mintDecimals)

/-- The whole run (the `__main__` block of the source): initialization
followed by `get_market_cap`.  An initialization error aborts the run before
any market-cap computation. -/
def runProgram (mint : String) (candidates : List Candidate)
    (poolAccountData : List Nat) (mintDecimals : Nat)
    (reserves : Nat × Nat) (oracle : HttpResponse)
    (total_supply : ℚ) : Except PyError MarketCapData := do
  let (_, _, td) ← initPool mint candidates poolAccountData mintDecimals
  get_market_cap reserves.1 reserves.2 td 9 oracle total_supply

/-- A concrete field assignment used to exercise the layout round trip. -/
def sampleFields : PoolFields :=
  { pool_bump := 253
    index := 7
    creator := List.replicate 32 1
    base_mint := List.replicate 32 2
    quote_mint := List.replicate 32 3
    lp_mint := List.replicate 32 4
    pool_base_token_account := List.replicate 32 5
    pool_quote_token_account := List.replicate 32 6
    lp_supply := 123456789012345
    coin_creator := List.replicate 32 7 }

/-! ### Little-endian serialization lemmas -/

/-- The number of bytes `leBytes` emits. -/
theorem leBytes_length (k n : Nat) : (leBytes k n).length = k := by
  simp [leBytes]

/-- Unfolding one byte of the little-endian serialization. -/
theorem leBytes_succ (k n : Nat) : leBytes (k + 1) n = n % 256 :: leBytes k (n / 256) := by
  simp only [leBytes, List.range_succ_eq_map, List.map_cons, pow_zero, Nat.div_one,
    List.map_map]
  congr 1
  apply List.map_congr_left
  intro i _
  simp [Function.comp, pow_succ, Nat.div_div_eq_div_mul, Nat.mul_comm]

/-- Parsing the serialization of `n` recovers `n` modulo the field's range. -/
theorem leValue_leBytes (k n : Nat) : leValue (leBytes k n) = n % 256 ^ k := by
  induction k generalizing n with
  | zero => simp [leBytes, leValue, Nat.mod_one]
  | succ k ih =>
    rw [leBytes_succ]
    simp only [leValue, List.foldr_cons]
    have h2 : leValue (leBytes k (n / 256)) = n / 256 % 256 ^ k := ih (n / 256)
    simp only [leValue] at h2
    rw [h2, pow_succ, mul_comm (256 ^ k) 256, Nat.mod_mul]

/-- Parsing the serialization of an in-range `n` recovers `n` exactly. -/
theorem leValue_leBytes_of_lt {k n : Nat} (h : n < 256 ^ k) : leValue (leBytes k n) = n := by
  rw [leValue_leBytes, Nat.mod_eq_of_lt h]

/-- Parsing a buffer made of eleven segments of the layout's widths yields
exactly the segments (addresses as-is, integer fields via `leValue`). -/
theorem parse_build_aux (pad b1 b2 cr bm qm lm pb pq ls cc : List Nat)
    (hpad : pad.length = 8) (hb1 : b1.length = 1) (hb2 : b2.length = 2)
    (hcr : cr.length = 32) (hbm : bm.length = 32) (hqm : qm.length = 32)
    (hlm : lm.length = 32) (hpb : pb.length = 32) (hpq : pq.length = 32)
    (hls : ls.length = 8) (hcc : cc.length = 32) :
    poolLayoutParse (pad ++ (b1 ++ (b2 ++ (cr ++ (bm ++ (qm ++ (lm ++ (pb ++ (pq ++ (ls ++ cc)))))))))) =
      some { pool_bump := leValue b1, index := leValue b2, creator := cr,
             base_mint := bm, quote_mint := qm, lp_mint := lm,
             pool_base_token_account := pb, pool_quote_token_account := pq,
             lp_supply := leValue ls, coin_creator := cc } := by
  have hlen : (pad ++ (b1 ++ (b2 ++ (cr ++ (bm ++ (qm ++ (lm ++ (pb ++ (pq ++ (ls ++ cc)))))))))).length = 243 := by
    simp [hpad, hb1, hb2, hcr, hbm, hqm, hlm, hpb, hpq, hls, hcc]
  simp only [poolLayoutParse, hlen]
  rw [if_pos (by omega)]
  rw [List.drop_left' hpad, List.take_left' hb1, List.drop_left' hb1,
    List.take_left' hb2, List.drop_left' hb2, List.take_left' hcr,
    List.drop_left' hcr, List.take_left' hbm, List.drop_left' hbm,
    List.take_left' hqm, List.drop_left' hqm, List.take_left' hlm,
    List.drop_left' hlm, List.take_left' hpb, List.drop_left' hpb,
    List.take_left' hpq, List.drop_left' hpq, List.take_left' hls,
    List.drop_left' hls]
  rw [← hcc, List.take_length]

/-! ### Pool-scan characterization -/

/-- A failed candidate does not change the maximum score. -/
theorem maxScore_cons_none {c : Candidate} {l : List Candidate} (h : c.fetch = none) :
    maxScore (c :: l) = maxScore l := by
  simp [maxScore, scoreCandidate, h]

/-- A fetched candidate contributes its product to the maximum score. -/
theorem maxScore_cons_some {c : Candidate} {l : List Candidate} {b q : Nat}
    (h : c.fetch = some (b, q)) : maxScore (c :: l) = max (b * q) (maxScore l) := by
  simp [maxScore, scoreCandidate, h]

/-- Every successfully scored member is bounded by the maximum score. -/
theorem score_le_maxScore {l : List Candidate} {c : Candidate} {s : Nat}
    (hc : c ∈ l) (hs : scoreCandidate c = some s) : s ≤ maxScore l := by
  induction l with
  | nil => cases hc
  | cons d rest ih =>
    rcases List.mem_cons.mp hc with rfl | hmem
    · simp [maxScore, hs]
    · cases hd : scoreCandidate d with
      | none =>
        simp only [maxScore, hd]
        exact ih hmem
      | some t =>
        simp only [maxScore, hd]
        exact le_trans (ih hmem) (Nat.le_max_right t (maxScore rest))

/-- A positive maximum score is attained by some member. -/
theorem exists_attains {l : List Candidate} (h : 0 < maxScore l) :
    ∃ c ∈ l, scoreCandidate c = some (maxScore l) := by
  induction l with
  | nil => simp [maxScore] at h
  | cons d rest ih =>
    cases hd : scoreCandidate d with
    | none =>
      rw [maxScore, hd] at h ⊢
      obtain ⟨c, hc, hsc⟩ := ih h
      exact ⟨c, List.mem_cons_of_mem d hc, hsc⟩
    | some t =>
      simp only [maxScore, hd] at h ⊢
      by_cases hr : maxScore rest ≤ t
      · refine ⟨d, List.mem_cons_self d rest, ?_⟩
        rw [hd, Nat.max_eq_left hr]
      · push_neg at hr
        have hpos : 0 < maxScore rest := by omega
        obtain ⟨c, hc, hsc⟩ := ih hpos
        refine ⟨c, List.mem_cons_of_mem d hc, ?_⟩
        rw [hsc, Nat.max_eq_right (le_of_lt hr)]

/-- Full characterization of the scanning loop: starting from best `best` and
running maximum `m`, the loop keeps `best` when no candidate beats `m`, and
otherwise returns the first candidate attaining the list's maximum score. -/
theorem poolScan_eq (l : List Candidate) : ∀ (best : Option String) (m : Nat),
    poolScan best m l =
      if maxScore l ≤ m then best
      else
        match List.find? (attainsScore (maxScore l)) l with
        | some c => some c.pubkey
        | none => best := by
  induction l with
  | nil =>
    intro best m
    simp [poolScan, maxScore]
  | cons c rest ih =>
    intro best m
    cases hc : c.fetch with
    | none =>
      have hsc : scoreCandidate c = none := by simp [scoreCandidate, hc]
      have hms : maxScore (c :: rest) = maxScore rest := maxScore_cons_none hc
      have hfind : List.find? (attainsScore (maxScore (c :: rest))) (c :: rest)
          = List.find? (attainsScore (maxScore rest)) rest := by
        rw [hms, List.find?_cons_of_neg]
        simp [attainsScore, hsc]
      simp only [poolScan, hc]
      rw [ih best m, hfind, hms]
    | some bq =>
      obtain ⟨b, q⟩ := bq
      have hsc : scoreCandidate c = some (b * q) := by simp [scoreCandidate, hc]
      have hms : maxScore (c :: rest) = max (b * q) (maxScore rest) := maxScore_cons_some hc
      simp only [poolScan, hc]
      by_cases hbq : b * q > m
      · rw [if_pos hbq, ih (some c.pubkey) (b * q)]
        by_cases hr : maxScore rest ≤ b * q
        · have hM : maxScore (c :: rest) = b * q := by
            rw [hms]; exact Nat.max_eq_left hr
          have hcond : ¬ maxScore (c :: rest) ≤ m := by rw [hM]; omega
          have hhead : List.find? (attainsScore (maxScore (c :: rest))) (c :: rest) = some c := by
            apply List.find?_cons_of_pos
            simp [attainsScore, hsc, hM]
          rw [if_pos hr, hhead, if_neg hcond]
        · push_neg at hr
          have hM : maxScore (c :: rest) = maxScore rest := by
            rw [hms]; exact Nat.max_eq_right (le_of_lt hr)
          have hfind : List.find? (attainsScore (maxScore (c :: rest))) (c :: rest)
              = List.find? (attainsScore (maxScore rest)) rest := by
            rw [hM, List.find?_cons_of_neg]
            simp only [attainsScore, hsc, decide_eq_true_eq, Option.some.injEq]
            omega
          obtain ⟨c1, hc1, hsc1⟩ := exists_attains (l := rest) (by omega)
          have hsome : (List.find? (attainsScore (maxScore rest)) rest).isSome := by
            rw [List.find?_isSome]
            exact ⟨c1, hc1, by simp [attainsScore, hsc1]⟩
          obtain ⟨c2, hc2⟩ := Option.isSome_iff_exists.mp hsome
          have hcond : ¬ maxScore (c :: rest) ≤ m := by rw [hM]; omega
          rw [if_neg (show ¬ maxScore rest ≤ b * q by omega), if_neg hcond, hfind, hc2]
      · rw [if_neg hbq, ih best m]
        push_neg at hbq
        by_cases hr : maxScore rest ≤ m
        · have h1 : maxScore (c :: rest) ≤ m := by
            rw [hms]; exact max_le hbq hr
          rw [if_pos hr, if_pos h1]
        · push_neg at hr
          have hM : maxScore (c :: rest) = maxScore rest := by
            rw [hms]; exact Nat.max_eq_right (by omega)
          have hfind : List.find? (attainsScore (maxScore (c :: rest))) (c :: rest)
              = List.find? (attainsScore (maxScore rest)) rest := by
            rw [hM, List.find?_cons_of_neg]
            simp only [attainsScore, hsc, decide_eq_true_eq, Option.some.injEq]
            omega
          have h1 : ¬ maxScore (c :: rest) ≤ m := by rw [hM]; omega
          rw [if_neg (show ¬ maxScore rest ≤ m by omega), if_neg h1, hfind]

/-- The locator returns nothing when the maximum score is zero, and the first
candidate attaining the maximum score otherwise. -/
theorem fetch_pool_from_rpc_eq (l : List Candidate) :
    fetch_pool_from_rpc l =
      if maxScore l = 0 then none
      else
        match List.find? (attainsScore (maxScore l)) l with
        | some c => some c.pubkey
        | none => none := by
  rw [fetch_pool_from_rpc, poolScan_eq]
  rcases Nat.eq_zero_or_pos (maxScore l) with h | h
  · simp [h]
  · rw [if_neg (by omega), if_neg (by omega)]

/-- When every fetched candidate has a zero reserve, the maximum score is
zero. -/
theorem maxScore_eq_zero {l : List Candidate}
    (h : ∀ c ∈ l, ∀ b q, c.fetch = some (b, q) → b = 0 ∨ q = 0) : maxScore l = 0 := by
  induction l with
  | nil => rfl
  | cons c rest ih =>
    have hrest : maxScore rest = 0 :=
      ih fun c' hc' b q hbq => h c' (List.mem_cons_of_mem c hc') b q hbq
    cases hc : c.fetch with
    | none => rw [maxScore_cons_none hc, hrest]
    | some bq =>
      obtain ⟨b, q⟩ := bq
      have hz : b = 0 ∨ q = 0 := h c (List.mem_cons_self c rest) b q hc
      rw [maxScore_cons_some hc, hrest]
      rcases hz with rfl | rfl <;> simp

/-- Removing a failed candidate anywhere in the scan leaves the loop state
unchanged. -/
theorem poolScan_skip (c : Candidate) (hc : c.fetch = none) (ys : List Candidate) :
    ∀ (xs : List Candidate) (best : Option String) (m : Nat),
      poolScan best m (xs ++ c :: ys) = poolScan best m (xs ++ ys) := by
  intro xs
  induction xs with
  | nil =>
    intro best m
    simp [poolScan, hc]
  | cons x xs ih =>
    intro best m
    cases hx : x.fetch with
    | none =>
      simp only [List.cons_append, poolScan, hx]
      exact ih best m
    | some bq =>
      obtain ⟨b, q⟩ := bq
      simp only [List.cons_append, poolScan, hx]
      by_cases h : b * q > m
      · rw [if_pos h, if_pos h]
        exact ih (some x.pubkey) (b * q)
      · rw [if_neg h, if_neg h]
        exact ih best m

/-! ### Claim theorems -/

/-- Claim C1 (code bug): at `base_reserve = 0` the computed token amount is
zero and `get_market_cap` propagates the interpreter's raw division-by-zero
fault from the unguarded `sol_amt / token_amt`; it does not detect the empty
pool or report a domain-specific error, contrary to the specification. -/
theorem get_market_cap_zero_reserve_raw_fault :
    get_market_cap 0 2000000000 9 9 ⟨200, [("Price", 100)]⟩ 1000000 =
      Except.error PyError.zeroDivisionError := by
  simp [get_market_cap, pyDiv, bind, Except.bind]

/-- Claim C2: over the concatenated candidates of both filter sets, if two
candidates were scored `L1 < L2`, the locator's result exists, is the
pubkey of a candidate attaining the maximum liquidity score, and that
maximum dominates `L2` (hence the `L2` candidate is preferred to the `L1`
one) as well as every other candidate's score. -/
theorem fetch_pool_prefers_max_liquidity (l : List Candidate) (c1 c2 : Candidate)
    (L1 L2 : Nat) (h1 : c1 ∈ l) (h2 : c2 ∈ l)
    (hs1 : scoreCandidate c1 = some L1) (hs2 : scoreCandidate c2 = some L2)
    (hlt : L1 < L2) :
    ∃ c ∈ l, fetch_pool_from_rpc l = some c.pubkey ∧
      scoreCandidate c = some (maxScore l) ∧ L2 ≤ maxScore l ∧
      ∀ c' ∈ l, ∀ s, scoreCandidate c' = some s → s ≤ maxScore l := by
  have hL2 : L2 ≤ maxScore l := score_le_maxScore h2 hs2
  have hpos : 0 < maxScore l := by omega
  obtain ⟨c, hc, hsc⟩ := exists_attains hpos
  have hsome : (List.find? (attainsScore (maxScore l)) l).isSome := by
    rw [List.find?_isSome]
    exact ⟨c, hc, by simp [attainsScore, hsc]⟩
  obtain ⟨c0, hc0⟩ := Option.isSome_iff_exists.mp hsome
  refine ⟨c0, List.mem_of_find?_eq_some hc0, ?_, ?_, hL2, ?_⟩
  · rw [fetch_pool_from_rpc_eq, if_neg (by omega), hc0]
  · have hp := List.find?_some hc0
    simpa [attainsScore] using hp
  · intro c' hc' s hs'
    exact score_le_maxScore hc' hs'

/-- Witness for C2 at a concrete run: candidates scored 1 and 6. -/
theorem fetch_pool_prefers_max_liquidity_witness :
    ∃ c ∈ [(⟨"A", some (1, 1)⟩ : Candidate), ⟨"B", some (2, 3)⟩],
      fetch_pool_from_rpc [(⟨"A", some (1, 1)⟩ : Candidate), ⟨"B", some (2, 3)⟩] =
          some c.pubkey ∧
      scoreCandidate c =
          some (maxScore [(⟨"A", some (1, 1)⟩ : Candidate), ⟨"B", some (2, 3)⟩]) ∧
      6 ≤ maxScore [(⟨"A", some (1, 1)⟩ : Candidate), ⟨"B", some (2, 3)⟩] ∧
      ∀ c' ∈ [(⟨"A", some (1, 1)⟩ : Candidate), ⟨"B", some (2, 3)⟩], ∀ s,
        scoreCandidate c' = some s →
          s ≤ maxScore [(⟨"A", some (1, 1)⟩ : Candidate), ⟨"B", some (2, 3)⟩] :=
  fetch_pool_prefers_max_liquidity _ ⟨"A", some (1, 1)⟩ ⟨"B", some (2, 3)⟩ 1 6
    (by decide) (by decide) rfl rfl (by decide)

/-- Claim C3, counterexample: two candidates tie at the maximum liquidity
score (both scored 0), yet the locator selects neither — the running maximum
starts at 0 and is only replaced on a strictly greater score, so the claim
fails when the tied maximum is zero. -/
theorem fetch_pool_zero_tie_counterexample :
    scoreCandidate ⟨"A", some (0, 5)⟩ =
        some (maxScore [⟨"A", some (0, 5)⟩, ⟨"B", some (0, 5)⟩]) ∧
    scoreCandidate ⟨"B", some (0, 5)⟩ =
        some (maxScore [⟨"A", some (0, 5)⟩, ⟨"B", some (0, 5)⟩]) ∧
    fetch_pool_from_rpc [⟨"A", some (0, 5)⟩, ⟨"B", some (0, 5)⟩] = none :=
  ⟨rfl, rfl, rfl⟩

/-- Claim C3, amended: when two or more candidates tie at a strictly positive
maximum liquidity score, the first such candidate in enumeration order (the
first match of `List.find?`) is the one the locator selects. -/
theorem fetch_pool_tie_first_wins (l : List Candidate) (c c' : Candidate)
    (hfind : List.find? (attainsScore (maxScore l)) l = some c)
    (hc' : c' ∈ l) (hne : c' ≠ c) (hs' : scoreCandidate c' = some (maxScore l))
    (hpos : 0 < maxScore l) :
    fetch_pool_from_rpc l = some c.pubkey := by
  rw [fetch_pool_from_rpc_eq, if_neg (by omega), hfind]

/-- Witness for the amended C3: two candidates both scored 2; the first one
is selected. -/
theorem fetch_pool_tie_first_wins_witness :
    fetch_pool_from_rpc [⟨"A", some (1, 2)⟩, ⟨"B", some (2, 1)⟩] = some "A" :=
  fetch_pool_tie_first_wins [⟨"A", some (1, 2)⟩, ⟨"B", some (2, 1)⟩]
    ⟨"A", some (1, 2)⟩ ⟨"B", some (2, 1)⟩ (by decide) (by decide) (by decide)
    (by decide) (by decide)

/-- Claim C4: decoding a buffer built by placing in-range field values at the
layout's offsets reproduces exactly those field values. -/
theorem poolLayout_roundtrip (f : PoolFields)
    (hbump : f.pool_bump < 256) (hindex : f.index < 65536)
    (hsupply : f.lp_supply < 18446744073709551616)
    (hcr : f.creator.length = 32) (hbm : f.base_mint.length = 32)
    (hqm : f.quote_mint.length = 32) (hlm : f.lp_mint.length = 32)
    (hpb : f.pool_base_token_account.length = 32)
    (hpq : f.pool_quote_token_account.length = 32)
    (hcc : f.coin_creator.length = 32) :
    poolLayoutParse (poolLayoutBuild f) = some f := by
  obtain ⟨bump, idx, cr, bm, qm, lm, pb, pq, ls, cc⟩ := f
  simp only [poolLayoutBuild, List.append_assoc]
  rw [parse_build_aux _ _ _ _ _ _ _ _ _ _ _ (by simp) (leBytes_length 1 bump)
    (leBytes_length 2 idx) hcr hbm hqm hlm hpb hpq (leBytes_length 8 ls) hcc]
  rw [leValue_leBytes_of_lt (by simpa using hbump),
    leValue_leBytes_of_lt (by simpa using hindex),
    leValue_leBytes_of_lt (by simpa using hsupply)]

/-- Witness for C4 at a concrete field assignment. -/
theorem poolLayout_roundtrip_witness :
    poolLayoutParse (poolLayoutBuild sampleFields) = some sampleFields :=
  poolLayout_roundtrip sampleFields (by decide) (by decide) (by decide)
    (by decide) (by decide) (by decide) (by decide) (by decide) (by decide)
    (by decide)

/-- Claim C5: on base_reserve 1e9 (9 decimals), quote_reserve 2e9
(9 decimals), oracle price 100 USD and supply 1e6, the calculator yields
price 2 in quote units, 200 USD, and a 200,000,000 USD market cap. -/
theorem get_market_cap_example :
    get_market_cap 1000000000 2000000000 9 9 ⟨200, [("Price", 100)]⟩ 1000000 =
      Except.ok ⟨2, 200, 200000000⟩ := by
  simp [get_market_cap, pyDiv, get_sol_price_usd, raise_for_status, bind, Except.bind,
    List.lookup]
  norm_num

/-- Claim C6: the market-cap computation is a deterministic function of the
six inputs — the oracle response influences the output only through the
parsed price, so two invocations agreeing on reserves, decimals, supply and
parsed oracle price yield identical outputs. -/
theorem get_market_cap_pure (a b c d : Nat) (s : ℚ) (r1 r2 : HttpResponse) (p : ℚ)
    (hp1 : get_sol_price_usd r1 = Except.ok p) (hp2 : get_sol_price_usd r2 = Except.ok p) :
    get_market_cap a b c d r1 s = get_market_cap a b c d r2 s := by
  simp only [get_market_cap, bind, Except.bind]
  cases pyDiv (a : ℚ) (10 ^ c) with
  | error e => rfl
  | ok token_amt =>
    dsimp only
    cases pyDiv (b : ℚ) (10 ^ d) with
    | error e => rfl
    | ok sol_amt =>
      dsimp only
      cases pyDiv sol_amt token_amt with
      | error e => rfl
      | ok token_price_sol =>
        dsimp only
        rw [hp1, hp2]

/-- Witness for C6: two distinct oracle responses carrying the same price
produce identical outputs. -/
theorem get_market_cap_pure_witness :
    get_market_cap 5 7 2 3 ⟨200, [("Price", 4)]⟩ 11 =
      get_market_cap 5 7 2 3 ⟨204, [("X", 9), ("Price", 4)]⟩ 11 :=
  get_market_cap_pure 5 7 2 3 11 ⟨200, [("Price", 4)]⟩ ⟨204, [("X", 9), ("Price", 4)]⟩ 4
    rfl rfl

/-- Claim C7, counterexample: a non-2xx response (status 301) whose body
carries a "Price" field is not fatal — `raise_for_status` only raises for
4xx/5xx, so the fetch succeeds and the market-cap computation completes. -/
theorem oracle_non2xx_not_fatal_counterexample :
    get_sol_price_usd ⟨301, [("Price", 100)]⟩ = Except.ok 100 ∧
    get_market_cap 1000000000 2000000000 9 9 ⟨301, [("Price", 100)]⟩ 1000000 =
      Except.ok ⟨2, 200, 200000000⟩ := by
  constructor
  · rfl
  · simp [get_market_cap, pyDiv, get_sol_price_usd, raise_for_status, bind, Except.bind,
      List.lookup]
    norm_num

/-- Claim C7, amended: a 4xx or 5xx HTTP status, or a JSON body missing the
"Price" field, makes the price fetch raise, and then no invocation of the
market-cap computation using that response completes with a value. -/
theorem oracle_bad_response_fatal (r : HttpResponse)
    (h : (400 ≤ r.status ∧ r.status < 600) ∨ r.body.lookup "Price" = none) :
    (∃ e, get_sol_price_usd r = Except.error e) ∧
    ∀ (a b c d : Nat) (s : ℚ), ∃ e', get_market_cap a b c d r s = Except.error e' := by
  have hfetch : ∃ e, get_sol_price_usd r = Except.error e := by
    by_cases hst : 400 ≤ r.status ∧ r.status < 600
    · exact ⟨PyError.httpError r.status,
        by simp [get_sol_price_usd, raise_for_status, hst, bind, Except.bind]⟩
    · rcases h with hst' | hpr
      · exact absurd hst' hst
      · exact ⟨PyError.keyError "Price",
          by simp [get_sol_price_usd, raise_for_status, hst, hpr, bind, Except.bind]⟩
  refine ⟨hfetch, ?_⟩
  intro a b c d s
  obtain ⟨e, he⟩ := hfetch
  have h10c : ((10 : ℚ) ^ c) ≠ 0 := by positivity
  have h10d : ((10 : ℚ) ^ d) ≠ 0 := by positivity
  by_cases hz : ((a : ℚ) / 10 ^ c) = 0
  · exact ⟨PyError.zeroDivisionError,
      by simp [get_market_cap, pyDiv, h10c, h10d, hz, bind, Except.bind]⟩
  · exact ⟨e,
      by simp [get_market_cap, pyDiv, h10c, h10d, hz, he, bind, Except.bind]⟩

/-- Witness for the amended C7 at a concrete 500 response. -/
theorem oracle_bad_response_fatal_witness :
    (∃ e, get_sol_price_usd ⟨500, [("Price", 3)]⟩ = Except.error e) ∧
    ∀ (a b c d : Nat) (s : ℚ),
      ∃ e', get_market_cap a b c d ⟨500, [("Price", 3)]⟩ s = Except.error e' :=
  oracle_bad_response_fatal ⟨500, [("Price", 3)]⟩ (Or.inl (by decide))

/-- Claim C8: a candidate whose per-candidate fetch raised is skipped — the
locator's result over the remaining candidates is unchanged, wherever the
failed candidate sits in enumeration order. -/
theorem failed_candidate_skipped (xs ys : List Candidate) (c : Candidate)
    (hc : c.fetch = none) :
    fetch_pool_from_rpc (xs ++ c :: ys) = fetch_pool_from_rpc (xs ++ ys) :=
  poolScan_skip c hc ys xs none 0

/-- Witness for C8: dropping a failed candidate between two scored ones. -/
theorem failed_candidate_skipped_witness :
    fetch_pool_from_rpc [⟨"A", some (1, 1)⟩, ⟨"B", none⟩, ⟨"C", some (2, 2)⟩] =
      fetch_pool_from_rpc [⟨"A", some (1, 1)⟩, ⟨"C", some (2, 2)⟩] :=
  failed_candidate_skipped [⟨"A", some (1, 1)⟩] [⟨"C", some (2, 2)⟩] ⟨"B", none⟩ rfl

/-- Claim C9: when the locator finds no pool, initialization aborts with the
descriptive `RuntimeError`, and the whole run yields that error — no price or
market-cap computation completes. -/
theorem no_pool_found_aborts (mint : String) (candidates : List Candidate)
    (poolData : List Nat) (dec : Nat) (rs : Nat × Nat) (o : HttpResponse) (s : ℚ)
    (h : fetch_pool_from_rpc candidates = none) :
    initPool mint candidates poolData dec =
        Except.error (PyError.runtimeError ("No pool found for mint " ++ mint)) ∧
    runProgram mint candidates poolData dec rs o s =
        Except.error (PyError.runtimeError ("No pool found for mint " ++ mint)) := by
  have hi : initPool mint candidates poolData dec =
      Except.error (PyError.runtimeError ("No pool found for mint " ++ mint)) := by
    simp [initPool, h]
  exact ⟨hi, by simp [runProgram, hi, bind, Except.bind]⟩

/-- Witness for C9: an empty candidate set aborts the run. -/
theorem no_pool_found_aborts_witness :
    initPool "MINT" [] [] 6 =
        Except.error (PyError.runtimeError ("No pool found for mint " ++ "MINT")) ∧
    runProgram "MINT" [] [] 6 (1, 2) ⟨200, [("Price", 3)]⟩ 5 =
        Except.error (PyError.runtimeError ("No pool found for mint " ++ "MINT")) :=
  no_pool_found_aborts "MINT" [] [] 6 (1, 2) ⟨200, [("Price", 3)]⟩ 5 rfl

/-- Claim C10: the locator never selects a zero-liquidity candidate — any
returned pool had both reserve balances strictly positive at scoring time,
and if every fetched candidate had a zero reserve the locator returns
nothing. -/
theorem fetch_pool_positive_liquidity (l : List Candidate) (p : String) :
    (fetch_pool_from_rpc l = some p →
      ∃ c ∈ l, p = c.pubkey ∧ ∃ b q, c.fetch = some (b, q) ∧ 0 < b ∧ 0 < q) ∧
    ((∀ c ∈ l, ∀ b q, c.fetch = some (b, q) → b = 0 ∨ q = 0) →
      fetch_pool_from_rpc l = none) := by
  constructor
  · intro hp
    rw [fetch_pool_from_rpc_eq] at hp
    by_cases h0 : maxScore l = 0
    · simp [h0] at hp
    · rw [if_neg h0] at hp
      cases hfind : List.find? (attainsScore (maxScore l)) l with
      | none => rw [hfind] at hp; cases hp
      | some c =>
        rw [hfind] at hp
        have hmem := List.mem_of_find?_eq_some hfind
        have hsc : scoreCandidate c = some (maxScore l) := by
          have hq := List.find?_some hfind
          simpa [attainsScore] using hq
        cases hfetch : c.fetch with
        | none => simp [scoreCandidate, hfetch] at hsc
        | some bq =>
          obtain ⟨b, q⟩ := bq
          have hbq : b * q = maxScore l := by
            have hx : scoreCandidate c = some (b * q) := by simp [scoreCandidate, hfetch]
            rw [hx] at hsc
            exact Option.some.inj hsc
          have hpk : p = c.pubkey := (Option.some.inj hp).symm
          refine ⟨c, hmem, hpk, b, q, hfetch, ?_, ?_⟩
          · rcases Nat.eq_zero_or_pos b with rfl | hb
            · simp at hbq; omega
            · exact hb
          · rcases Nat.eq_zero_or_pos q with rfl | hq
            · simp at hbq; omega
            · exact hq
  · intro hz
    rw [fetch_pool_from_rpc_eq]
    simp [maxScore_eq_zero hz]

/-- Witness for C10: a selected pool with positive reserves, and a run over a
single zero-reserve candidate returning nothing. -/
theorem fetch_pool_positive_liquidity_witness :
    (∃ c ∈ [(⟨"A", some (2, 3)⟩ : Candidate)], "A" = c.pubkey ∧
      ∃ b q, c.fetch = some (b, q) ∧ 0 < b ∧ 0 < q) ∧
    fetch_pool_from_rpc [(⟨"Z", some (0, 7)⟩ : Candidate)] = none :=
  ⟨(fetch_pool_positive_liquidity [⟨"A", some (2, 3)⟩] "A").1 rfl,
   (fetch_pool_positive_liquidity [⟨"Z", some (0, 7)⟩] "Z").2 (by
     intro c hc b q hbq
     simp only [List.mem_singleton] at hc
     subst hc
     simp only [Option.some.injEq, Prod.mk.injEq] at hbq
     exact Or.inl hbq.1.symm)⟩
